import Mathlib

/-!
Verification development for the consensus-to-application pipeline of the
Lightning node runtime.  The definitions below are shallow embeddings of the
Rust sources under `src/core/consensus` and of the application-state executor
exercised by `src/core/application/src/tests/epoch_change.rs`.  Machine
integers that never overflow in the modelled paths (epochs, node indices,
lengths) are modelled as `Nat`; digests are opaque byte lists; fallible
operations return `Option`/`Except`.
-/

namespace Lightning

/-- A digest (`[u8; 32]` in the source) modelled as a list of bytes. -/
abbrev Digest := List Nat

/-- A raw transaction (`Vec<u8>` in the source). -/
abbrev Txn := List Nat

/-- Epochs are `u64` in the source; all modelled paths stay far below `2^64`. -/
abbrev Epoch := Nat

/-- Node indices are `u32` in the source. -/
abbrev NodeIndex := Nat

namespace Edge

/-- From `edge_node.rs` (`message_receiver_worker`, also recomputed in
`try_execute`): `let mut quorom_threshold = (committee.len() * 2) / 3 + 1;`
`Nat` division truncates exactly as Rust integer division does. -/
def quorumThreshold (committee : List NodeIndex) : Nat :=
  committee.length * 2 / 3 + 1

/-- The quorum formula exactly as the spec words it: `⌈2·n/3⌉ + 1`
(ceiling division), written with the `Nat` identity `⌈a/3⌉ = (a+2)/3`.
This definition follows the spec, not the source; it exists to be compared
against `quorumThreshold`. -/
def specCeilThreshold (n : Nat) : Nat :=
  (2 * n + 2) / 3 + 1

/-- From `edge_node.rs`:
`(in_committee && msg_epoch == current_epoch) || msg_epoch == current_epoch + 1`. -/
def is_valid_message (inCommittee : Bool) (msgEpoch currentEpoch : Epoch) : Bool :=
  (inCommittee && msgEpoch == currentEpoch) || msgEpoch == currentEpoch + 1

/-- Observable effects of `handle_parcel` in `edge_node.rs`, gathered while the
handler runs: whether `mark_invalid_sender` was called, whether `propagate`
was called, which store command was sent (`none` if the message was dropped,
`some true` = `StorePendingParcel`, `some false` = `StoreParcel`), the digest a
parcel timer was registered for (if any), whether `try_execute` was invoked,
and the `pending_requests` cache after the handler returns. -/
structure ParcelAction where
  markedInvalid : Bool
  propagated : Bool
  store : Option Bool
  timer : Option Digest
  triedExecute : Bool
  pendingRequestsAfter : List Digest
deriving Repr, DecidableEq

/-- Shallow embedding of `handle_parcel` (`edge_node.rs:271-377`).  The
`pending_requests` cache is a key set; `Cache::remove` deletes the entry and
reports whether it was present, which we model with `List.filter`.  Note that
the source calls `pending_requests.remove(&parcel_digest)` twice: once in the
propagation check and once again in the "did we request this parcel" check,
so the second call always reports absence. -/
def handle_parcel (committee : List NodeIndex) (currentEpoch : Epoch)
    (onCommittee : Bool) (pendingRequests : List Digest)
    (originator : NodeIndex) (parcelEpoch : Epoch)
    (parcelDigest lastExecuted : Digest) : ParcelAction :=
  let isCommittee := committee.contains originator
  if !is_valid_message isCommittee parcelEpoch currentEpoch then
    { markedInvalid := true, propagated := false, store := none, timer := none,
      triedExecute := false, pendingRequestsAfter := pendingRequests }
  else
    let fromNextEpoch := parcelEpoch == currentEpoch + 1
    -- first `pending_requests.remove(&parcel_digest)`
    let wasRequested := pendingRequests.contains parcelDigest
    let pending1 := pendingRequests.filter (fun d => !(d == parcelDigest))
    let propagated := !wasRequested && !fromNextEpoch
    let store := some fromNextEpoch
    -- second `pending_requests.remove(&parcel_digest)`
    let wasRequested2 := pending1.contains parcelDigest
    let pending2 := pending1.filter (fun d => !(d == parcelDigest))
    let timer := if wasRequested2 then some lastExecuted else none
    { markedInvalid := false, propagated := propagated, store := store,
      timer := timer, triedExecute := !onCommittee,
      pendingRequestsAfter := pending2 }

/-- Observable effects of `handle_attestation` in `edge_node.rs`. -/
structure AttestationAction where
  markedInvalid : Bool
  propagated : Bool
  store : Option Bool
  triedExecute : Bool
deriving Repr, DecidableEq

/-- Shallow embedding of `handle_attestation` (`edge_node.rs:380-453`):
the message is marked invalid when `originator != att.node_index` or when
`is_valid_message` fails; otherwise it is propagated unless it is from the
next epoch, and on non-committee nodes it is stored
(`StorePendingAttestation` when from the next epoch, else `StoreAttestation`)
and `try_execute` runs. -/
def handle_attestation (committee : List NodeIndex) (currentEpoch : Epoch)
    (onCommittee : Bool) (originator : NodeIndex)
    (attNodeIndex : NodeIndex) (attEpoch : Epoch) : AttestationAction :=
  let isCommittee := committee.contains originator
  if !(originator == attNodeIndex) || !is_valid_message isCommittee attEpoch currentEpoch then
    { markedInvalid := true, propagated := false, store := none, triedExecute := false }
  else
    let fromNextEpoch := attEpoch == currentEpoch + 1
    let propagated := !fromNextEpoch
    let store := if onCommittee then none else some fromNextEpoch
    { markedInvalid := false, propagated := propagated, store := store,
      triedExecute := !onCommittee }

end Edge

namespace Exec

/-- `AuthenticStampedParcel` from `execution.rs:41-46`: an ordered batch of
transactions plus the digest of the previously executed parcel, the epoch and
the narwhal sub-dag index. -/
structure AuthenticStampedParcel where
  transactions : List Txn
  last_executed : Digest
  epoch : Epoch
  sub_dag_index : Nat
deriving Repr, DecidableEq

/-- Little-endian bytes of `(n as u32).to_le_bytes()`. -/
def u32le (n : Nat) : List Nat :=
  [n % 2 ^ 32 % 256, n % 2 ^ 32 / 256 % 256, n % 2 ^ 32 / 2 ^ 16 % 256, n % 2 ^ 32 / 2 ^ 24 % 256]

/-- The byte string hashed by `AuthenticStampedParcel::to_digest`
(`execution.rs:53-63`): the transaction count as `u32` little-endian bytes,
then the batch digest of the ordered transaction list, then `last_executed`.
`batchDigest` stands for `BatchDigest::new(DefaultHashFunction::digest_iterator(...))`,
which reads only the transaction list. -/
def digestPreimage (batchDigest : List Txn → List Nat)
    (p : AuthenticStampedParcel) : List Nat :=
  u32le p.transactions.length ++ batchDigest p.transactions ++ p.last_executed

/-- `AuthenticStampedParcel::to_digest` (`execution.rs:53-63`): the blake3 hash
of `digestPreimage`.  The two hash functions are parameters of the model; the
source code applies them to nothing but the fields listed in `digestPreimage`. -/
def to_digest (blake3 : List Nat → Digest) (batchDigest : List Txn → List Nat)
    (p : AuthenticStampedParcel) : Digest :=
  blake3 (digestPreimage batchDigest p)

/-- `NotExecuted` from `execution.rs:517-520`.  The timeout is a duration in
milliseconds. -/
inductive NotExecuted where
  | missingParcel (digest : Digest) (timeout : Nat)
  | missingAttestations (digest : Digest)
deriving Repr, DecidableEq

/-- The in-memory state read and written by `Execution::try_execute`
(`execution.rs`): the transaction store's parcels (keyed by parcel digest) and
attestations (sets of attesting node indices per digest), the
`pending_digests` and `executed_digests` sets, and the chain head as reported
by `query_runner.get_last_block()` (updated by the application whenever a
block is executed, to the digest of that block). -/
structure ExecState where
  parcels : List (Digest × AuthenticStampedParcel)
  attestations : List (Digest × List NodeIndex)
  pendingDigests : List Digest
  executedDigests : List Digest
  head : Digest
deriving Repr, DecidableEq

/-- Insert a digest into a digest set (no duplicates), as `HashSet::insert`. -/
def insertDigest (d : Digest) (s : List Digest) : List Digest :=
  if s.contains d then s else d :: s

/-- One executed batch as submitted to the application by `submit_batch`:
the transactions, the sub-dag index and the parcel digest. -/
abbrev BatchEntry := List Txn × Nat × Digest

/-- The loop of `try_execute_chain` (`execution.rs:343-405`), with explicit
accumulators for the `txn_chain` deque (`push_front`, so the accumulated list
is ordered oldest first) and the `parcel_chain` vector.  `oracle d` models the
answer of `submit_batch` (whether executing the block with digest `d` changed
the epoch), and `timeout` models `get_parcel_timeout()`.  The walk recurses on
`fuel`; the Rust loop does not terminate on a cyclic store, which the model
renders as `none`.  On success the executed batches are returned oldest first,
the chain digests leave `pending_digests` and enter `executed_digests`, and the
head reported by the application becomes the digest of the last executed block
(the walk's target).  On a gap the chain digests are inserted into
`pending_digests` and `MissingParcel` carries the first absent digest. -/
def tryExecuteChainGo (oracle : Digest → Bool) (timeout : Nat) (target : Digest)
    (st : ExecState) (lastDigest : Digest) (txnChain : List BatchEntry)
    (parcelChain : List Digest) :
    Nat → Option (ExecState × List BatchEntry × Except NotExecuted Bool)
  | 0 => none
  | fuel + 1 =>
    match st.parcels.lookup lastDigest with
    | none =>
      some ({ st with
                pendingDigests := parcelChain.foldl (fun s d => insertDigest d s)
                  st.pendingDigests },
            [], Except.error (NotExecuted.missingParcel lastDigest timeout))
    | some parcel =>
      let parcelChain := parcelChain ++ [lastDigest]
      let txnChain : List BatchEntry :=
        (parcel.transactions, parcel.sub_dag_index, lastDigest) :: txnChain
      if parcel.last_executed == st.head then
        let epochChanged := txnChain.any (fun b => oracle b.2.2)
        some ({ st with
                  pendingDigests := st.pendingDigests.filter
                    (fun d => !(parcelChain.contains d)),
                  executedDigests := parcelChain.foldl (fun s d => insertDigest d s)
                    st.executedDigests,
                  head := target },
              txnChain, Except.ok epochChanged)
      else
        tryExecuteChainGo oracle timeout target st parcel.last_executed txnChain
          parcelChain fuel

/-- `try_execute_chain` (`execution.rs:343`), entered from its caller with the
target digest. -/
def tryExecuteChain (oracle : Digest → Bool) (timeout : Nat) (st : ExecState)
    (digest : Digest) (fuel : Nat) :
    Option (ExecState × List BatchEntry × Except NotExecuted Bool) :=
  tryExecuteChainGo oracle timeout digest st digest [] [] fuel

/-- `try_execute_internal` (`execution.rs:317-341`): a digest already in
`pending_digests` returns `Ok(false)` at once; otherwise the chain walk runs
only when the store holds at least `threshold` attestations for the target
digest, and `MissingAttestations` is reported otherwise. -/
def tryExecuteInternal (oracle : Digest → Bool) (timeout : Nat) (st : ExecState)
    (digest : Digest) (threshold : Nat) (fuel : Nat) :
    Option (ExecState × List BatchEntry × Except NotExecuted Bool) :=
  if st.pendingDigests.contains digest then
    some (st, [], Except.ok false)
  else
    match st.attestations.lookup digest with
    | some atts =>
      if atts.length ≥ threshold then
        tryExecuteChain oracle timeout st digest fuel
      else
        some (st, [], Except.error (NotExecuted.missingAttestations digest))
    | none => some (st, [], Except.error (NotExecuted.missingAttestations digest))

/-- The retry loop at the end of `try_execute` (`execution.rs:296-313`): for
every digest in a snapshot of `pending_digests`, if it is still pending, run
`try_execute_internal` again (reading the current head) and fold any `Ok`
result into the epoch-changed flag; errors of retries are swallowed. -/
def tryExecuteRetries (oracle : Digest → Bool) (timeout : Nat) (threshold : Nat)
    (fuel : Nat) :
    List Digest → ExecState → Bool → List BatchEntry →
    Option (ExecState × List BatchEntry × Bool)
  | [], st, acc, batches => some (st, batches, acc)
  | d :: rest, st, acc, batches =>
    if st.pendingDigests.contains d then
      match tryExecuteInternal oracle timeout st d threshold fuel with
      | none => none
      | some (st', ex, Except.ok b) =>
        tryExecuteRetries oracle timeout threshold fuel rest st' (acc || b)
          (batches ++ ex)
      | some (st', ex, Except.error _) =>
        tryExecuteRetries oracle timeout threshold fuel rest st' acc (batches ++ ex)
    else
      tryExecuteRetries oracle timeout threshold fuel rest st acc batches

/-- `try_execute` (`execution.rs:287-315`): run `try_execute_internal` on the
target digest — mapping `MissingAttestations` to "epoch unchanged" and
returning any `MissingParcel` error unchanged — then retry every digest still
in `pending_digests`.  The returned list collects every batch submitted to the
application during the call, in submission order. -/
def tryExecute (oracle : Digest → Bool) (timeout : Nat) (st : ExecState)
    (digest : Digest) (threshold : Nat) (fuel : Nat) :
    Option (ExecState × List BatchEntry × Except NotExecuted Bool) :=
  match tryExecuteInternal oracle timeout st digest threshold fuel with
  | none => none
  | some (st1, ex1, r1) =>
    match r1 with
    | Except.ok b =>
      match tryExecuteRetries oracle timeout threshold fuel st1.pendingDigests st1 b ex1 with
      | none => none
      | some (st2, ex2, b2) => some (st2, ex2, Except.ok b2)
    | Except.error (NotExecuted.missingAttestations _) =>
      match tryExecuteRetries oracle timeout threshold fuel st1.pendingDigests st1 false ex1 with
      | none => none
      | some (st2, ex2, b2) => some (st2, ex2, Except.ok b2)
    | Except.error e => some (st1, ex1, Except.error e)

/-- `ChainTo parcels head d bs` holds when the store `parcels` contains an
unbroken chain of parcels from the parcel keyed `d` back along `last_executed`
pointers to a parcel whose `last_executed` equals `head`, and `bs` lists the
batches of that chain oldest first (the parcel adjacent to the head first,
the parcel keyed `d` last). -/
inductive ChainTo (parcels : List (Digest × AuthenticStampedParcel)) (head : Digest) :
    Digest → List BatchEntry → Prop
  | base (d : Digest) (p : AuthenticStampedParcel) :
      parcels.lookup d = some p → p.last_executed = head →
      ChainTo parcels head d [(p.transactions, p.sub_dag_index, d)]
  | step (d : Digest) (p : AuthenticStampedParcel) (bs : List BatchEntry) :
      parcels.lookup d = some p → p.last_executed ≠ head →
      ChainTo parcels head p.last_executed bs →
      ChainTo parcels head d (bs ++ [(p.transactions, p.sub_dag_index, d)])

/-- `GapAt parcels head d g` holds when walking `last_executed` pointers from
`d` (without meeting `head`) reaches the absent digest `g`: `g` is the first
gap of the walk that starts at `d`. -/
inductive GapAt (parcels : List (Digest × AuthenticStampedParcel)) (head : Digest) :
    Digest → Digest → Prop
  | base (d : Digest) : parcels.lookup d = none → GapAt parcels head d d
  | step (d : Digest) (p : AuthenticStampedParcel) (g : Digest) :
      parcels.lookup d = some p → p.last_executed ≠ head →
      GapAt parcels head p.last_executed g →
      GapAt parcels head d g

end Exec

namespace App

/-- Execution-error kinds reachable from `ChangeEpoch` (spec §4.2, exercised
by `tests/epoch_change.rs`). -/
inductive ExecutionError where
  | onlyNode
  | nodeDoesNotExist
  | insufficientStake
  | notCommitteeMember
  | nodeNotParticipating
  | epochAlreadyChanged
  | epochHasNotStarted
  | alreadySignaled
deriving Repr, DecidableEq

/-- A transaction response: `Success` or `Revert(kind)`. -/
inductive TxnResponse where
  | success
  | revert (err : ExecutionError)
deriving Repr, DecidableEq

/-- The node-table fields read by `ChangeEpoch`: staked amount, locked amount
and whether `participation = True`. -/
structure NodeInfo where
  staked : Nat
  locked : Nat
  participating : Bool
deriving Repr, DecidableEq

/-- A per-epoch committee record: the ordered member list and the sorted
`ready_to_change` set. -/
structure CommitteeInfo where
  members : List NodeIndex
  ready_to_change : List NodeIndex
deriving Repr, DecidableEq

/-- The committee-selection beacon phase kept in committee metadata. -/
inductive BeaconPhase where
  | none
  | commit (epochRound : Epoch × Nat)
  | reveal (epochRound : Epoch × Nat)
deriving Repr, DecidableEq

/-- The slice of application state read and written by `ChangeEpoch` and by
epoch advancement: the current epoch, the committee table keyed by epoch, the
node table keyed by node index, the `min_stake` protocol parameter and the
beacon phase. -/
structure AppState where
  epoch : Epoch
  committees : List (Epoch × CommitteeInfo)
  nodes : List (NodeIndex × NodeInfo)
  minStake : Nat
  beaconPhase : BeaconPhase
deriving Repr, DecidableEq

/-- Replace (or insert) the committee record of epoch `e`. -/
def updateCommittee (e : Epoch) (c : CommitteeInfo) :
    List (Epoch × CommitteeInfo) → List (Epoch × CommitteeInfo)
  | [] => [(e, c)]
  | (e', c') :: rest =>
    if e' == e then (e, c) :: rest else (e', c') :: updateCommittee e c rest

/-- Modelled from the spec: the epoch-change quorum (§4.2 step 9).  The state
executor itself is not under `src/`; the in-repo test
`test_epoch_change_with_all_committee_nodes` (committee of 4, the third signal
triggers the transition) pins the computation to `(2·n)/3 + 1` with truncating
division, the same formula the in-`src` gossip code uses, rather than the
ceiling formula written in the spec's glossary. -/
def epochChangeThreshold (members : List NodeIndex) : Nat :=
  2 * members.length / 3 + 1

/-- Sorted insertion into the `ready_to_change` set (§4.2 step 8). -/
def insertSortedIndex (a : NodeIndex) (l : List NodeIndex) : List NodeIndex :=
  List.orderedInsert (· ≤ ·) a l

/-- Modelled from the spec: `ChangeEpoch` semantics, §4.2 steps 2-9 (the state
executor is not under `src/`; only its tests are).  Checks are performed in
the spec's order: node existence, minimum stake, participation, epoch match,
committee membership, double-signal; then the sender's index is inserted into
`ready_to_change` in sorted order and, when the quorum is reached, the beacon
phase becomes `Commit((epoch, 0))`.  The returned `Bool` is the receipt's
`change_epoch` flag, which is always `false` for this transaction (the epoch
increments only after the beacon completes).  One departure from the spec's
§4.2 step 3, forced by the in-repo test
`test_change_epoch_with_only_locked_stake` (a node with `staked = 0`,
`locked = 1000`, `min_stake = 1000` succeeds and counts toward the quorum):
the minimum-stake check compares `staked + locked`, not `staked` alone,
against `min_stake`. -/
def changeEpoch (st : AppState) (sender : NodeIndex) (epochArg : Epoch) :
    TxnResponse × Bool × AppState :=
  match st.nodes.lookup sender with
  | Option.none => (TxnResponse.revert ExecutionError.nodeDoesNotExist, false, st)
  | some info =>
    if info.staked + info.locked < st.minStake then
      (TxnResponse.revert ExecutionError.insufficientStake, false, st)
    else if !info.participating then
      (TxnResponse.revert ExecutionError.nodeNotParticipating, false, st)
    else if epochArg < st.epoch then
      (TxnResponse.revert ExecutionError.epochAlreadyChanged, false, st)
    else if st.epoch < epochArg then
      (TxnResponse.revert ExecutionError.epochHasNotStarted, false, st)
    else
      match st.committees.lookup st.epoch with
      | Option.none => (TxnResponse.revert ExecutionError.notCommitteeMember, false, st)
      | some c =>
        if !(c.members.contains sender) then
          (TxnResponse.revert ExecutionError.notCommitteeMember, false, st)
        else if c.ready_to_change.contains sender then
          (TxnResponse.revert ExecutionError.alreadySignaled, false, st)
        else
          let ready := insertSortedIndex sender c.ready_to_change
          let phase :=
            if epochChangeThreshold c.members ≤ ready.length then
              BeaconPhase.commit (st.epoch, 0)
            else st.beaconPhase
          (TxnResponse.success, false,
            { st with
                committees := updateCommittee st.epoch ⟨c.members, ready⟩ st.committees,
                beaconPhase := phase })

/-- Modelled from the spec: entry into epoch `e + 1` after successful beacon
completion (§4.2/§4.5; the state executor is not under `src/`).  The epoch
increments, a fresh committee record with an empty `ready_to_change` set is
installed for the new epoch, and the beacon phase resets. -/
def advanceEpoch (st : AppState) (newMembers : List NodeIndex) : AppState :=
  { st with
      epoch := st.epoch + 1,
      committees := updateCommittee (st.epoch + 1) ⟨newMembers, []⟩ st.committees,
      beaconPhase := BeaconPhase.none }

/-- The transactions relevant to the epoch-signaling invariants: a
`ChangeEpoch` submission and the epoch-advance transition. -/
inductive AppTxn where
  | changeEpoch (sender : NodeIndex) (epoch : Epoch)
  | advance (newMembers : List NodeIndex)

/-- Apply one transaction to the state (receipts discarded). -/
def stepTxn (st : AppState) : AppTxn → AppState
  | AppTxn.changeEpoch s e => (changeEpoch st s e).2.2
  | AppTxn.advance m => advanceEpoch st m

/-- Apply a list of transactions in order. -/
def runTxns (st : AppState) (ts : List AppTxn) : AppState :=
  ts.foldl stepTxn st

/-- The `ready_to_change` set recorded for epoch `e` (empty if no record). -/
def readyOf (st : AppState) (e : Epoch) : List NodeIndex :=
  ((st.committees.lookup e).map CommitteeInfo.ready_to_change).getD []

/-- The member list recorded for epoch `e` (empty if no record). -/
def membersOf (st : AppState) (e : Epoch) : List NodeIndex :=
  ((st.committees.lookup e).map CommitteeInfo.members).getD []

/-- Well-formedness of one committee record: `ready_to_change` is sorted,
duplicate-free and a subset of `members`. -/
def CommitteeWF (c : CommitteeInfo) : Prop :=
  c.ready_to_change.Sorted (· ≤ ·) ∧ c.ready_to_change.Nodup
    ∧ ∀ x ∈ c.ready_to_change, x ∈ c.members

/-- Well-formedness of every committee record in the state. -/
def WF (st : AppState) : Prop :=
  ∀ p ∈ st.committees, CommitteeWF p.2

/-- The genesis of `test_change_epoch_with_only_locked_stake`: two committee
nodes, node 0 with `staked = 0, locked = 1000`, node 1 with
`staked = 1000, locked = 0`, and `min_stake = 1000`. -/
def lockedStakeGenesis : AppState :=
  { epoch := 0,
    committees := [(0, ⟨[0, 1], []⟩)],
    nodes := [(0, ⟨0, 1000, true⟩), (1, ⟨1000, 0, true⟩)],
    minStake := 1000,
    beaconPhase := BeaconPhase.none }

/-- The genesis of `test_epoch_change_with_all_committee_nodes`: four staked,
participating committee nodes. -/
def fourNodeGenesis : AppState :=
  { epoch := 0,
    committees := [(0, ⟨[0, 1, 2, 3], []⟩)],
    nodes := [(0, ⟨1000, 0, true⟩), (1, ⟨1000, 0, true⟩),
              (2, ⟨1000, 0, true⟩), (3, ⟨1000, 0, true⟩)],
    minStake := 1000,
    beaconPhase := BeaconPhase.none }

/-- The four-node state after `ChangeEpoch` signals from nodes 0 and 1:
`ready_to_change = [0, 1]`, beacon phase still `None`. -/
def twoSignalState : AppState :=
  { epoch := 0,
    committees := [(0, ⟨[0, 1, 2, 3], [0, 1]⟩)],
    nodes := [(0, ⟨1000, 0, true⟩), (1, ⟨1000, 0, true⟩),
              (2, ⟨1000, 0, true⟩), (3, ⟨1000, 0, true⟩)],
    minStake := 1000,
    beaconPhase := BeaconPhase.none }

/-- A single-node state whose node's combined stake is below `min_stake`,
used to witness the insufficient-stake revert. -/
def lowStakeState : AppState :=
  { epoch := 0,
    committees := [(0, ⟨[0], []⟩)],
    nodes := [(0, ⟨300, 300, true⟩)],
    minStake := 1000,
    beaconPhase := BeaconPhase.none }

end App

namespace Rewards

/-- Raw-integer arithmetic of `HpUfixed<P>` (the `hp-fixed` crate): a value is
a big unsigned integer carrying `P` implied decimal fraction digits.
`hpFromNat` embeds a whole number. -/
def hpFromNat (p n : Nat) : Nat := n * 10 ^ p

/-- `HpUfixed<P>` multiplication: `(a·b) / 10^P`, truncating. -/
def hpMul (p a b : Nat) : Nat := a * b / 10 ^ p

/-- `HpUfixed<P>` division: `(a·10^P) / b`, truncating. -/
def hpDiv (p a b : Nat) : Nat := a * 10 ^ p / b

/-- `HpUfixed::convert_precision`: widen by a power of ten or truncate. -/
def hpConvert (pFrom pTo a : Nat) : Nat :=
  if pFrom ≤ pTo then a * 10 ^ (pTo - pFrom) else a / 10 ^ (pFrom - pTo)

/-- The inputs of the reward distribution of one epoch, as configured by
genesis and by the delivery-acknowledgment transactions of the epoch:
percentage shares, the year-start supply, epochs per year, the per-service
commodity price (an `HpUfixed<6>` raw value) and the list of acknowledged
deliveries `(node, commodity, service)`. -/
structure RewardsInput where
  maxInflation : Nat
  nodeShare : Nat
  protocolShare : Nat
  serviceShare : Nat
  supplyAtYearStart : Nat
  epochsPerYear : Nat
  servicePrice : Nat → Nat
  acks : List (NodeIndex × Nat × Nat)

/-- A percentage share as an `HpUfixed<18>` fraction:
`HpUfixed::from(share) / HpUfixed::from(100)`. -/
def shareFrac18 (share : Nat) : Nat :=
  hpDiv 18 (hpFromNat 18 share) (hpFromNat 18 100)

/-- Modelled from the spec: per-node stablecoin revenue, the sum over that
node's delivery acknowledgments of `commodity · service_price` in
`HpUfixed<6>` arithmetic (§4.2 reward emission; the reward-distribution
executor is not under `src/`, its formulas are pinned by
`test_distribute_rewards`). -/
def nodeRevenue (inp : RewardsInput) (n : NodeIndex) : Nat :=
  (inp.acks.filter (fun a => a.1 == n)).foldl
    (fun acc a => acc + hpMul 6 (hpFromNat 6 a.2.1) (inp.servicePrice a.2.2)) 0

/-- Modelled from the spec: per-service stablecoin revenue, summed over the
acknowledgments naming that service. -/
def serviceRevenue (inp : RewardsInput) (s : Nat) : Nat :=
  (inp.acks.filter (fun a => a.2.2 == s)).foldl
    (fun acc a => acc + hpMul 6 (hpFromNat 6 a.2.1) (inp.servicePrice a.2.2)) 0

/-- Modelled from the spec: the total stablecoin reward pool of the epoch. -/
def rewardPool (inp : RewardsInput) : Nat :=
  inp.acks.foldl
    (fun acc a => acc + hpMul 6 (hpFromNat 6 a.2.1) (inp.servicePrice a.2.2)) 0

/-- Modelled from the spec: FLK emissions of one epoch,
`(max_inflation/100) · supply_at_year_start / epochs_per_year`, evaluated in
`HpUfixed<18>` arithmetic in that order. -/
def emissions (inp : RewardsInput) : Nat :=
  hpDiv 18 (hpMul 18 (shareFrac18 inp.maxInflation) (hpFromNat 18 inp.supplyAtYearStart))
    (hpFromNat 18 inp.epochsPerYear)

/-- Modelled from the spec: a node owner's stablecoin payout,
`revenue · node_share` with the share converted to 6-digit precision. -/
def nodeStables (inp : RewardsInput) (n : NodeIndex) : Nat :=
  hpMul 6 (nodeRevenue inp n) (hpConvert 18 6 (shareFrac18 inp.nodeShare))

/-- Modelled from the spec: the protocol account's stablecoin payout,
`reward_pool · protocol_share`. -/
def protocolStables (inp : RewardsInput) : Nat :=
  hpMul 6 (rewardPool inp) (hpConvert 18 6 (shareFrac18 inp.protocolShare))

/-- Modelled from the spec: the protocol account's FLK payout,
`emissions · protocol_share` in `HpUfixed<18>` arithmetic. -/
def protocolFlk (inp : RewardsInput) : Nat :=
  hpMul 18 (emissions inp) (shareFrac18 inp.protocolShare)

/-- Modelled from the spec: a service's share of the pool as an
`HpUfixed<18>` proportion, `service_revenue / reward_pool`. -/
def serviceProportion18 (inp : RewardsInput) (s : Nat) : Nat :=
  hpDiv 18 (hpConvert 6 18 (serviceRevenue inp s)) (hpConvert 6 18 (rewardPool inp))

/-- Modelled from the spec: a service owner's stablecoin payout,
`reward_pool · service_share · proportion` in `HpUfixed<6>` arithmetic. -/
def serviceStables (inp : RewardsInput) (s : Nat) : Nat :=
  hpMul 6 (hpMul 6 (rewardPool inp) (hpConvert 18 6 (shareFrac18 inp.serviceShare)))
    (hpConvert 18 6 (serviceProportion18 inp s))

/-- Modelled from the spec: a service owner's FLK payout,
`emissions · service_share · proportion` in `HpUfixed<18>` arithmetic. -/
def serviceFlk (inp : RewardsInput) (s : Nat) : Nat :=
  hpMul 18 (hpMul 18 (emissions inp) (shareFrac18 inp.serviceShare))
    (serviceProportion18 inp s)

/-- The concrete scenario of `test_distribute_rewards`: shares
`{node = 80, protocol = 10, service = 10}`, `max_inflation = 10`, genesis
supply `1_000_000`, the default `epochs_per_year = 365`, service prices
`{0 → 0.1, 1 → 0.2}` (raw `HpUfixed<6>` values `100000` and `200000`), and
acknowledgments `(node 0, 12800, service 0)`, `(node 0, 3600, service 1)`,
`(node 1, 5000, service 1)`. -/
def testRewardsInput : RewardsInput :=
  { maxInflation := 10, nodeShare := 80, protocolShare := 10, serviceShare := 10,
    supplyAtYearStart := 1000000, epochsPerYear := 365,
    servicePrice := fun s => if s == 0 then 100000 else 200000,
    acks := [(0, 12800, 0), (0, 3600, 1), (1, 5000, 1)] }

end Rewards

/-! Concrete states used by the claim theorems below. -/

/-- Concrete transaction-store state for claim C1: parcel `[1]` (three
attestations) points at parcel `[0]` (no attestations at all), which points at
the stored head `[9]`. -/
def C1store : Exec.ExecState :=
  { parcels := [([1], ⟨[[8]], [0], 0, 2⟩), ([0], ⟨[[7]], [9], 0, 1⟩)],
    attestations := [([1], [10, 11, 12])],
    pendingDigests := [], executedDigests := [], head := [9] }

/-- Concrete transaction-store state for claim C3's witness: parcel `[1]`
(three attestations) points at digest `[0]`, which is absent. -/
def C3gapStore : Exec.ExecState :=
  { parcels := [([1], ⟨[[8]], [0], 0, 2⟩)],
    attestations := [([1], [10, 11, 12])],
    pendingDigests := [], executedDigests := [], head := [9] }

/-- Empty transaction-store state for claim C3's counterexample. -/
def C3emptyStore : Exec.ExecState :=
  { parcels := [], attestations := [], pendingDigests := [], executedDigests := [],
    head := [9] }

namespace Exec

/-- Walk characterization, success case: whenever the `try_execute_chain` loop
returns `Ok`, the parcels it visited form an unbroken chain back to the head,
and the batches handed to `submit_batch` are that chain (oldest first)
followed by the accumulator, with the epoch-changed flag the disjunction of
the per-block answers. -/
theorem tryExecuteChainGo_ok (oracle : Digest → Bool) (timeout : Nat) (tgt : Digest)
    (st : ExecState) :
    ∀ (fuel : Nat) (last : Digest) (txnAcc : List BatchEntry) (pcAcc : List Digest)
      (st' : ExecState) (ex : List BatchEntry) (b : Bool),
      tryExecuteChainGo oracle timeout tgt st last txnAcc pcAcc fuel
        = some (st', ex, Except.ok b) →
      ∃ bs, ChainTo st.parcels st.head last bs ∧ ex = bs ++ txnAcc
        ∧ b = ex.any (fun e => oracle e.2.2) := by
  intro fuel
  induction fuel with
  | zero =>
    intro last txnAcc pcAcc st' ex b h
    simp [tryExecuteChainGo] at h
  | succ fuel ih =>
    intro last txnAcc pcAcc st' ex b h
    rw [tryExecuteChainGo] at h
    cases hl : st.parcels.lookup last with
    | none =>
      rw [hl] at h
      simp at h
    | some p =>
      rw [hl] at h
      simp only at h
      by_cases hh : p.last_executed == st.head
      · rw [if_pos hh] at h
        simp only [Option.some.injEq, Prod.mk.injEq, Except.ok.injEq] at h
        obtain ⟨hst, hex, hb⟩ := h
        refine ⟨[(p.transactions, p.sub_dag_index, last)], ?_, ?_, ?_⟩
        · exact ChainTo.base last p hl (by simpa using hh)
        · rw [← hex]; simp
        · rw [← hex, ← hb]
      · rw [if_neg hh] at h
        obtain ⟨bs, hchain, hex, hb⟩ :=
          ih p.last_executed ((p.transactions, p.sub_dag_index, last) :: txnAcc)
            (pcAcc ++ [last]) st' ex b h
        refine ⟨bs ++ [(p.transactions, p.sub_dag_index, last)], ?_, ?_, hb⟩
        · exact ChainTo.step last p bs hl (by simpa using hh) hchain
        · rw [hex]
          simp

/-- Walk characterization, failure case: whenever the `try_execute_chain` loop
returns an error, that error is `MissingParcel` at the first gap of the walk,
and nothing was handed to `submit_batch`. -/
theorem tryExecuteChainGo_err (oracle : Digest → Bool) (timeout : Nat) (tgt : Digest)
    (st : ExecState) :
    ∀ (fuel : Nat) (last : Digest) (txnAcc : List BatchEntry) (pcAcc : List Digest)
      (st' : ExecState) (ex : List BatchEntry) (e : NotExecuted),
      tryExecuteChainGo oracle timeout tgt st last txnAcc pcAcc fuel
        = some (st', ex, Except.error e) →
      ∃ g, e = NotExecuted.missingParcel g timeout ∧ GapAt st.parcels st.head last g
        ∧ ex = [] := by
  intro fuel
  induction fuel with
  | zero =>
    intro last txnAcc pcAcc st' ex e h
    simp [tryExecuteChainGo] at h
  | succ fuel ih =>
    intro last txnAcc pcAcc st' ex e h
    rw [tryExecuteChainGo] at h
    cases hl : st.parcels.lookup last with
    | none =>
      rw [hl] at h
      simp only [Option.some.injEq, Prod.mk.injEq, Except.error.injEq] at h
      obtain ⟨hst, hex, he⟩ := h
      exact ⟨last, he.symm, GapAt.base last hl, hex.symm⟩
    | some p =>
      rw [hl] at h
      simp only at h
      by_cases hh : p.last_executed == st.head
      · rw [if_pos hh] at h
        simp at h
      · rw [if_neg hh] at h
        obtain ⟨g, he, hgap, hex⟩ :=
          ih p.last_executed ((p.transactions, p.sub_dag_index, last) :: txnAcc)
            (pcAcc ++ [last]) st' ex e h
        exact ⟨g, he, GapAt.step last p g hl (by simpa using hh) hgap, hex⟩

/-- The retry loop of `try_execute` is a no-op: every digest it retries is by
construction still in `pending_digests`, and `try_execute_internal` returns
`Ok(false)` immediately for such digests, so no retry changes the state,
executes a batch, or alters the epoch-changed flag. -/
theorem tryExecuteRetries_noop (oracle : Digest → Bool) (timeout : Nat)
    (threshold : Nat) (fuel : Nat) :
    ∀ (ds : List Digest) (st : ExecState) (acc : Bool) (batches : List BatchEntry),
      tryExecuteRetries oracle timeout threshold fuel ds st acc batches
        = some (st, batches, acc) := by
  intro ds
  induction ds with
  | nil => intro st acc batches; rfl
  | cons d rest ih =>
    intro st acc batches
    rw [tryExecuteRetries]
    by_cases hd : st.pendingDigests.contains d
    · rw [if_pos hd]
      have hint : tryExecuteInternal oracle timeout st d threshold fuel
          = some (st, [], Except.ok false) := by
        rw [tryExecuteInternal, if_pos hd]
      rw [hint]
      show tryExecuteRetries oracle timeout threshold fuel rest st (acc || false)
        (batches ++ []) = some (st, batches, acc)
      rw [Bool.or_false, List.append_nil]
      exact ih st acc batches
    · rw [if_neg hd]
      exact ih st acc batches

/-- `try_execute` reduces to `try_execute_internal` on the target digest, with
`MissingAttestations` mapped to `Ok(false)`, every other error returned
unchanged, and the retry loop contributing nothing. -/
theorem tryExecute_eq_internal (oracle : Digest → Bool) (timeout : Nat)
    (st : ExecState) (digest : Digest) (threshold : Nat) (fuel : Nat) :
    tryExecute oracle timeout st digest threshold fuel
      = match tryExecuteInternal oracle timeout st digest threshold fuel with
        | none => none
        | some (st1, ex1, Except.ok b) => some (st1, ex1, Except.ok b)
        | some (st1, ex1, Except.error (NotExecuted.missingAttestations _)) =>
            some (st1, ex1, Except.ok false)
        | some (st1, ex1, Except.error e) => some (st1, ex1, Except.error e) := by
  rw [tryExecute]
  cases h : tryExecuteInternal oracle timeout st digest threshold fuel with
  | none => rfl
  | some res =>
    obtain ⟨st1, ex1, r1⟩ := res
    cases r1 with
    | ok b => simp [tryExecuteRetries_noop]
    | error e =>
      cases e with
      | missingParcel g t => rfl
      | missingAttestations g => simp [tryExecuteRetries_noop]

end Exec

namespace App

/-- Looking up the updated epoch returns the new record. -/
theorem lookup_updateCommittee_self (e : Epoch) (c : CommitteeInfo) :
    ∀ l : List (Epoch × CommitteeInfo), (updateCommittee e c l).lookup e = some c := by
  intro l
  induction l with
  | nil => simp [updateCommittee, List.lookup]
  | cons p rest ih =>
    obtain ⟨e', c'⟩ := p
    rw [updateCommittee]
    by_cases h : e' = e
    · subst h
      rw [if_pos (by simp)]
      simp [List.lookup]
    · rw [if_neg (by simpa using h)]
      have hb : (e == e') = false := by simpa using Ne.symm h
      simp [List.lookup, hb, ih]

/-- Looking up any other epoch is unaffected by the update. -/
theorem lookup_updateCommittee_ne (e e₀ : Epoch) (c : CommitteeInfo) (hne : e₀ ≠ e) :
    ∀ l : List (Epoch × CommitteeInfo), (updateCommittee e c l).lookup e₀ = l.lookup e₀ := by
  intro l
  induction l with
  | nil =>
    have hb : (e₀ == e) = false := by simpa using hne
    simp [updateCommittee, List.lookup, hb]
  | cons p rest ih =>
    obtain ⟨e', c'⟩ := p
    rw [updateCommittee]
    by_cases h : e' = e
    · subst h
      rw [if_pos (by simp)]
      have hb : (e₀ == e') = false := by simpa using hne
      simp [List.lookup, hb]
    · rw [if_neg (by simpa using h)]
      simp [List.lookup, ih]

/-- Every record of the updated table is the new record or an old one. -/
theorem mem_updateCommittee (e : Epoch) (c : CommitteeInfo) :
    ∀ (l : List (Epoch × CommitteeInfo)) (p : Epoch × CommitteeInfo),
      p ∈ updateCommittee e c l → p = (e, c) ∨ p ∈ l := by
  intro l
  induction l with
  | nil =>
    intro p hp
    rw [updateCommittee] at hp
    exact Or.inl (by simpa using hp)
  | cons q rest ih =>
    obtain ⟨e', c'⟩ := q
    intro p hp
    rw [updateCommittee] at hp
    by_cases h : e' == e
    · rw [if_pos h] at hp
      rcases List.mem_cons.mp hp with h1 | h1
      · exact Or.inl h1
      · exact Or.inr (List.mem_cons_of_mem _ h1)
    · rw [if_neg h] at hp
      rcases List.mem_cons.mp hp with h1 | h1
      · exact Or.inr (List.mem_cons.mpr (Or.inl h1))
      · rcases ih p h1 with h2 | h2
        · exact Or.inl h2
        · exact Or.inr (List.mem_cons_of_mem _ h2)

/-- A successful association-list lookup exhibits a member. -/
theorem mem_of_lookup_eq_some (e : Epoch) (c : CommitteeInfo) :
    ∀ l : List (Epoch × CommitteeInfo), l.lookup e = some c → (e, c) ∈ l := by
  intro l
  induction l with
  | nil => intro h; simp [List.lookup] at h
  | cons p rest ih =>
    obtain ⟨e', c'⟩ := p
    intro h
    rw [List.lookup] at h
    cases hb : e == e' with
    | true =>
      rw [hb] at h
      dsimp only at h
      have he : e = e' := by simpa using hb
      have hc : c' = c := by simpa using h
      subst he; subst hc
      exact List.mem_cons_self _ _
    | false =>
      rw [hb] at h
      dsimp only at h
      exact List.mem_cons_of_mem _ (ih h)

/-- Sorted insertion preserves well-formedness of a committee record when the
inserted index is a member and not yet present. -/
theorem CommitteeWF_insert (c : CommitteeInfo) (s : NodeIndex) (hWF : CommitteeWF c)
    (hmem : s ∈ c.members) (hnot : s ∉ c.ready_to_change) :
    CommitteeWF ⟨c.members, insertSortedIndex s c.ready_to_change⟩ := by
  obtain ⟨hs, hd, hsub⟩ := hWF
  refine ⟨?_, ?_, ?_⟩
  · exact List.Sorted.orderedInsert s _ hs
  · exact ((List.perm_orderedInsert _ s _).nodup_iff).mpr (List.nodup_cons.mpr ⟨hnot, hd⟩)
  · intro x hx
    rcases (List.mem_orderedInsert _).mp hx with h | h
    · subst h; exact hmem
    · exact hsub x h

/-- A `true` membership test yields list membership. -/
theorem mem_of_not_bang_contains {l : List NodeIndex} {a : NodeIndex}
    (h : ¬(!(l.contains a)) = true) : a ∈ l := by
  cases hcb : l.contains a
  · rw [hcb] at h
    simp at h
  · simpa [List.elem_eq_mem, decide_eq_true_eq] using hcb

/-- A failed membership test yields non-membership. -/
theorem not_mem_of_not_contains {l : List NodeIndex} {a : NodeIndex}
    (h : ¬(l.contains a) = true) : a ∉ l :=
  fun hx => h (by simpa [List.elem_eq_mem, decide_eq_true_eq] using hx)

/-- The successful branch of `ChangeEpoch` preserves well-formedness,
whatever beacon phase it installs. -/
theorem WF_changeEpoch_success (st : AppState) (s : NodeIndex) (c : CommitteeInfo)
    (h : WF st) (hc : st.committees.lookup st.epoch = some c)
    (hsm : s ∈ c.members) (hsr : s ∉ c.ready_to_change) (ph : BeaconPhase) :
    WF { st with
      committees := updateCommittee st.epoch
        ⟨c.members, insertSortedIndex s c.ready_to_change⟩ st.committees,
      beaconPhase := ph } := by
  intro p hp
  rcases mem_updateCommittee _ _ _ p hp with rfl | hmem
  · exact CommitteeWF_insert c s (h (st.epoch, c) (mem_of_lookup_eq_some _ _ _ hc)) hsm hsr
  · exact h p hmem

/-- `ChangeEpoch` preserves well-formedness of every committee record. -/
theorem WF_changeEpoch (st : AppState) (s : NodeIndex) (e : Epoch) (h : WF st) :
    WF (changeEpoch st s e).2.2 := by
  rw [changeEpoch]
  cases hn : st.nodes.lookup s with
  | none => exact h
  | some info =>
    dsimp only
    split_ifs with h1 h2 h3 h4
    · exact h
    · exact h
    · exact h
    · exact h
    · cases hc : st.committees.lookup st.epoch with
      | none => exact h
      | some c =>
        dsimp only
        split_ifs with h5 h6 h7
        · exact h
        · exact h
        · exact WF_changeEpoch_success st s c h hc (mem_of_not_bang_contains h5)
            (not_mem_of_not_contains h6) _
        · exact WF_changeEpoch_success st s c h hc (mem_of_not_bang_contains h5)
            (not_mem_of_not_contains h6) _

/-- Epoch advancement preserves well-formedness (the fresh record has an
empty `ready_to_change` set). -/
theorem WF_advanceEpoch (st : AppState) (m : List NodeIndex) (h : WF st) :
    WF (advanceEpoch st m) := by
  intro p hp
  rcases mem_updateCommittee _ _ _ p hp with rfl | hmem
  · exact ⟨List.sorted_nil, List.nodup_nil, by simp⟩
  · exact h p hmem

/-- Every transaction preserves well-formedness. -/
theorem WF_stepTxn (st : AppState) (t : AppTxn) (h : WF st) : WF (stepTxn st t) := by
  cases t with
  | changeEpoch s e => exact WF_changeEpoch st s e h
  | advance m => exact WF_advanceEpoch st m h

/-- Any run of transactions preserves well-formedness. -/
theorem WF_runTxns (ts : List AppTxn) :
    ∀ st : AppState, WF st → WF (runTxns st ts) := by
  induction ts with
  | nil => intro st h; exact h
  | cons t rest ih =>
    intro st h
    exact ih (stepTxn st t) (WF_stepTxn st t h)

/-- The successful branch of `ChangeEpoch` only inserts into the current
epoch's `ready_to_change` set and leaves every other epoch's set alone. -/
theorem readyOf_updateCommittee_mono (st : AppState) (s : NodeIndex) (c : CommitteeInfo)
    (hc : st.committees.lookup st.epoch = some c) (ph : BeaconPhase) (ep : Epoch)
    (x : NodeIndex) (hx : x ∈ readyOf st ep) :
    x ∈ readyOf { st with
      committees := updateCommittee st.epoch
        ⟨c.members, insertSortedIndex s c.ready_to_change⟩ st.committees,
      beaconPhase := ph } ep := by
  by_cases hep : ep = st.epoch
  · rw [readyOf, hep, hc] at hx
    simp only [Option.map_some', Option.getD_some] at hx
    rw [readyOf, hep]
    show x ∈ ((List.lookup st.epoch (updateCommittee st.epoch
      ⟨c.members, insertSortedIndex s c.ready_to_change⟩ st.committees)).map
        CommitteeInfo.ready_to_change).getD []
    rw [lookup_updateCommittee_self]
    simp only [Option.map_some', Option.getD_some]
    exact (List.mem_orderedInsert _).mpr (Or.inr hx)
  · rw [readyOf] at hx ⊢
    show x ∈ ((List.lookup ep (updateCommittee st.epoch
      ⟨c.members, insertSortedIndex s c.ready_to_change⟩ st.committees)).map
        CommitteeInfo.ready_to_change).getD []
    rw [lookup_updateCommittee_ne _ _ _ hep]
    exact hx

/-- A `ChangeEpoch` transaction never removes an index from any epoch's
`ready_to_change` set. -/
theorem readyOf_mono_changeEpoch (st : AppState) (s : NodeIndex) (e ep : Epoch) :
    ∀ x ∈ readyOf st ep, x ∈ readyOf (changeEpoch st s e).2.2 ep := by
  intro x hx
  rw [changeEpoch]
  cases hn : st.nodes.lookup s with
  | none => exact hx
  | some info =>
    dsimp only
    split_ifs with h1 h2 h3 h4
    · exact hx
    · exact hx
    · exact hx
    · exact hx
    · cases hc : st.committees.lookup st.epoch with
      | none => exact hx
      | some c =>
        dsimp only
        split_ifs with h5 h6 h7
        · exact hx
        · exact hx
        · exact readyOf_updateCommittee_mono st s c hc _ ep x hx
        · exact readyOf_updateCommittee_mono st s c hc _ ep x hx

/-- Entering epoch `e + 1` installs an empty `ready_to_change` set for the
new current epoch. -/
theorem readyOf_advanceEpoch_reset (st : AppState) (m : List NodeIndex) :
    readyOf (advanceEpoch st m) (st.epoch + 1) = [] := by
  rw [readyOf, advanceEpoch]
  show ((List.lookup (st.epoch + 1) (updateCommittee (st.epoch + 1) ⟨m, []⟩
    st.committees)).map CommitteeInfo.ready_to_change).getD [] = []
  rw [lookup_updateCommittee_self]
  rfl

end App

/-! Claim C1: execution only requires an attestation quorum on the target
parcel, not on every link of the chain. -/


/-- C1, counterexample: calling `try_execute` on digest `[1]` with threshold 3
executes the parcel with digest `[0]` (its batch `[[7]]` is submitted to the
application) although the store holds no attestations whatsoever for `[0]`,
refuting the claim that every parcel on the chain must carry at least `2f+1`
attestations from the committee before it is executed. -/
theorem C1_counterexample :
    Exec.tryExecute (fun _ => false) 30000 C1store [1] 3 10
      = some ({ parcels := C1store.parcels, attestations := C1store.attestations,
                pendingDigests := [], executedDigests := [[0], [1]], head := [1] },
              [([[7]], 1, [0]), ([[8]], 2, [1])], Except.ok false)
    ∧ C1store.attestations.lookup [0] = none :=
  ⟨rfl, rfl⟩

/-- C1 (amended): no parcel is executed by `try_execute` unless, at the moment
of execution, the transaction store holds an unbroken chain of parcels from
the *target* digest back to the stored head and the store holds at least
`threshold` attestations for the target digest itself; attestations on the
intermediate parcels of the chain (and committee membership of the attesters)
are not checked.  The executed batches are exactly that chain. -/
theorem C1_executed_implies_target_quorum_chain
    (oracle : Digest → Bool) (timeout : Nat) (st : Exec.ExecState) (digest : Digest)
    (threshold fuel : Nat) (st' : Exec.ExecState) (ex : List Exec.BatchEntry)
    (r : Except Exec.NotExecuted Bool)
    (hres : Exec.tryExecute oracle timeout st digest threshold fuel = some (st', ex, r))
    (hne : ex ≠ []) :
    ∃ atts, st.attestations.lookup digest = some atts ∧ threshold ≤ atts.length ∧
      Exec.ChainTo st.parcels st.head digest ex := by
  rw [Exec.tryExecute_eq_internal] at hres
  cases hint : Exec.tryExecuteInternal oracle timeout st digest threshold fuel with
  | none => rw [hint] at hres; exact absurd hres (by simp)
  | some res =>
    obtain ⟨st1, ex1, r1⟩ := res
    rw [hint] at hres
    have hex : ex = ex1 := by
      cases r1 with
      | ok b =>
        simp only [Option.some.injEq, Prod.mk.injEq] at hres
        exact hres.2.1.symm
      | error e =>
        cases e with
        | missingParcel g t =>
          simp only [Option.some.injEq, Prod.mk.injEq] at hres
          exact hres.2.1.symm
        | missingAttestations g =>
          simp only [Option.some.injEq, Prod.mk.injEq] at hres
          exact hres.2.1.symm
    rw [Exec.tryExecuteInternal] at hint
    by_cases hp : st.pendingDigests.contains digest
    · rw [if_pos hp] at hint
      simp only [Option.some.injEq, Prod.mk.injEq] at hint
      exact absurd (hex.trans hint.2.1.symm) hne
    · rw [if_neg hp] at hint
      cases ha : st.attestations.lookup digest with
      | none =>
        rw [ha] at hint
        simp only [Option.some.injEq, Prod.mk.injEq] at hint
        exact absurd (hex.trans hint.2.1.symm) hne
      | some atts =>
        rw [ha] at hint
        dsimp only at hint
        by_cases hlen : atts.length ≥ threshold
        · rw [if_pos hlen] at hint
          cases r1 with
          | ok b =>
            obtain ⟨bs, hchain, hex1, hb⟩ :=
              Exec.tryExecuteChainGo_ok oracle timeout digest st fuel digest [] [] st1 ex1 b hint
            refine ⟨atts, rfl, hlen, ?_⟩
            rw [hex, hex1, List.append_nil]
            exact hchain
          | error e =>
            obtain ⟨g, hg, hgap, hex1⟩ :=
              Exec.tryExecuteChainGo_err oracle timeout digest st fuel digest [] [] st1 ex1 e hint
            exact absurd (hex.trans hex1) hne
        · rw [if_neg hlen] at hint
          simp only [Option.some.injEq, Prod.mk.injEq] at hint
          exact absurd (hex.trans hint.2.1.symm) hne

/-- C1, witness: in the `C1store` scenario the amended statement is inhabited:
the target `[1]` has three attestations and the executed batches form a chain
to the head. -/
theorem C1_witness :
    ∃ atts, C1store.attestations.lookup [1] = some atts ∧ 3 ≤ atts.length ∧
      Exec.ChainTo C1store.parcels C1store.head [1] [([[7]], 1, [0]), ([[8]], 2, [1])] :=
  C1_executed_implies_target_quorum_chain (fun _ => false) 30000 C1store [1] 3 10
    { parcels := C1store.parcels, attestations := C1store.attestations,
      pendingDigests := [], executedDigests := [[0], [1]], head := [1] }
    [([[7]], 1, [0]), ([[8]], 2, [1])] (Except.ok false) rfl (by simp)

/-! Claim C2: the quorum threshold computed by the gossip pipeline. -/

/-- C2, counterexample: for a committee of 4 members the code computes
`(4 * 2) / 3 + 1 = 3`, while the spec's formula `⌈2·4/3⌉ + 1 = 4`; the two
disagree, refuting the claim that the computed threshold equals the ceiling
formula for every committee size. -/
theorem C2_counterexample :
    Edge.quorumThreshold [0, 1, 2, 3] = 3 ∧ Edge.specCeilThreshold 4 = 4
    ∧ Edge.quorumThreshold [0, 1, 2, 3] ≠ Edge.specCeilThreshold ([0, 1, 2, 3] : List NodeIndex).length := by
  refine ⟨rfl, rfl, ?_⟩
  decide

/-- C2 (amended): for every committee of size `n` the computed quorum
threshold equals `⌊2·n/3⌋ + 1` (floor division).  For BFT committee sizes
`n = 3f + 1` this is exactly the `2f + 1` quorum, and it coincides with the
spec's ceiling formula `⌈2·n/3⌉ + 1` precisely when 3 divides `n`. -/
theorem C2_quorum_threshold_floor (c : List NodeIndex) (f : Nat) :
    Edge.quorumThreshold c = 2 * c.length / 3 + 1
    ∧ (c.length = 3 * f + 1 → Edge.quorumThreshold c = 2 * f + 1)
    ∧ (c.length % 3 = 0 → Edge.quorumThreshold c = Edge.specCeilThreshold c.length) := by
  unfold Edge.quorumThreshold Edge.specCeilThreshold
  refine ⟨by rw [Nat.mul_comm], ?_, ?_⟩ <;> intro h <;> omega

/-- C2, witness: the amended statement at a committee of size `4 = 3·1 + 1`:
the computed threshold is `2·1 + 1 = 3`. -/
theorem C2_witness :
    ([0, 1, 2, 3] : List NodeIndex).length = 3 * 1 + 1
    ∧ Edge.quorumThreshold [0, 1, 2, 3] = 2 * 1 + 1 :=
  ⟨by decide, (C2_quorum_threshold_floor [0, 1, 2, 3] 1).2.1 (by decide)⟩

/-! Claim C4: the parcel timer for requested parcels. -/

/-- C4: evaluation of `handle_parcel` at the failing input — a valid
current-epoch parcel (originator 1 of committee `[0,1,2,3]`, epoch 5) whose
digest `[42]` sits in the `pending_requests` cache because this node had
requested it.  The message is correctly not propagated, but no parcel timer is
registered for `parcel.last_executed = [41]`: the first
`pending_requests.remove` (in the propagation check) already evicted the
digest, so the second `remove` (in the "did we request this parcel" check)
reports absence and the timer branch is dead, contradicting the code's own
comment and the specified behaviour. -/
theorem C4_requested_parcel_timer_never_set :
    Edge.handle_parcel [0, 1, 2, 3] 5 false [[42]] 1 5 [42] [41]
      = { markedInvalid := false, propagated := false, store := some false,
          timer := none, triedExecute := true, pendingRequestsAfter := [] } := rfl

/-! Claim C8: gossip message validity. -/

/-- C8: a parcel event is processed (not marked invalid) exactly when its
epoch equals the current epoch and the originator is in the cached committee,
or its epoch is the next epoch; an attestation event additionally requires
`originator = att.node_index`; every invalid message is dropped without being
stored or propagated, without touching timers, and without altering the
pending-requests cache. -/
theorem C8_message_validity
    (committee : List NodeIndex) (currentEpoch : Epoch) (onCommittee : Bool)
    (pendingRequests : List Digest) (originator attNodeIndex : NodeIndex)
    (msgEpoch : Epoch) (parcelDigest lastExecuted : Digest) :
    ((Edge.handle_parcel committee currentEpoch onCommittee pendingRequests originator
        msgEpoch parcelDigest lastExecuted).markedInvalid = false
      ↔ ((msgEpoch = currentEpoch ∧ originator ∈ committee) ∨ msgEpoch = currentEpoch + 1))
    ∧ ((Edge.handle_attestation committee currentEpoch onCommittee originator attNodeIndex
        msgEpoch).markedInvalid = false
      ↔ (originator = attNodeIndex ∧
          ((msgEpoch = currentEpoch ∧ originator ∈ committee) ∨ msgEpoch = currentEpoch + 1)))
    ∧ ((Edge.handle_parcel committee currentEpoch onCommittee pendingRequests originator
        msgEpoch parcelDigest lastExecuted).markedInvalid = true →
        (Edge.handle_parcel committee currentEpoch onCommittee pendingRequests originator
          msgEpoch parcelDigest lastExecuted)
          = { markedInvalid := true, propagated := false, store := none, timer := none,
              triedExecute := false, pendingRequestsAfter := pendingRequests })
    ∧ ((Edge.handle_attestation committee currentEpoch onCommittee originator attNodeIndex
        msgEpoch).markedInvalid = true →
        (Edge.handle_attestation committee currentEpoch onCommittee originator attNodeIndex
          msgEpoch)
          = { markedInvalid := true, propagated := false, store := none,
              triedExecute := false }) := by
  have hvalid : ∀ inC : Bool, Edge.is_valid_message inC msgEpoch currentEpoch = true
      ↔ ((msgEpoch = currentEpoch ∧ inC = true) ∨ msgEpoch = currentEpoch + 1) := by
    intro inC
    simp only [Edge.is_valid_message, Bool.or_eq_true, Bool.and_eq_true, beq_iff_eq]
    tauto
  refine ⟨?_, ?_, ?_, ?_⟩
  · rw [Edge.handle_parcel]
    by_cases hv : Edge.is_valid_message (committee.contains originator) msgEpoch currentEpoch
    · rw [hv]
      simp only [Bool.not_true, Bool.false_eq_true, if_false]
      have := (hvalid (committee.contains originator)).mp hv
      simp only [List.elem_eq_mem, decide_eq_true_eq] at this
      simpa using Or.imp (fun h => And.intro h.1 h.2) id this
    · have hv' : Edge.is_valid_message (committee.contains originator) msgEpoch currentEpoch
          = false := by
        cases hb : Edge.is_valid_message (committee.contains originator) msgEpoch currentEpoch
        · rfl
        · exact absurd hb hv
      rw [hv']
      simp only [Bool.not_false, if_true]
      constructor
      · intro h; exact absurd h (by simp)
      · intro h
        have : Edge.is_valid_message (committee.contains originator) msgEpoch currentEpoch
            = true := by
          rw [hvalid]
          rcases h with ⟨h1, h2⟩ | h1
          · exact Or.inl ⟨h1, by simpa [List.elem_eq_mem, decide_eq_true_eq] using h2⟩
          · exact Or.inr h1
        rw [this] at hv'
        exact absurd hv' (by simp)
  · rw [Edge.handle_attestation]
    by_cases ho : originator = attNodeIndex
    · by_cases hv : Edge.is_valid_message (committee.contains originator) msgEpoch currentEpoch
      · have hcond : (!(originator == attNodeIndex)
            || !Edge.is_valid_message (committee.contains originator) msgEpoch currentEpoch)
            = false := by
          rw [hv]
          simp [ho]
        rw [hcond]
        simp only [Bool.false_eq_true, if_false]
        have := (hvalid (committee.contains originator)).mp hv
        simp only [List.elem_eq_mem, decide_eq_true_eq] at this
        constructor
        · intro _
          exact ⟨ho, Or.imp (fun h => And.intro h.1 h.2) id this⟩
        · intro _; trivial
      · have hv' : Edge.is_valid_message (committee.contains originator) msgEpoch currentEpoch
            = false := by
          cases hb : Edge.is_valid_message (committee.contains originator) msgEpoch currentEpoch
          · rfl
          · exact absurd hb hv
        have hcond : (!(originator == attNodeIndex)
            || !Edge.is_valid_message (committee.contains originator) msgEpoch currentEpoch)
            = true := by
          rw [hv']
          simp
        rw [hcond]
        simp only [if_true]
        constructor
        · intro h; exact absurd h (by simp)
        · intro h
          have : Edge.is_valid_message (committee.contains originator) msgEpoch currentEpoch
              = true := by
            rw [hvalid]
            rcases h.2 with ⟨h1, h2⟩ | h1
            · exact Or.inl ⟨h1, by simpa [List.elem_eq_mem, decide_eq_true_eq] using h2⟩
            · exact Or.inr h1
          rw [this] at hv'
          exact absurd hv' (by simp)
    · have hcond : (!(originator == attNodeIndex)
          || !Edge.is_valid_message (committee.contains originator) msgEpoch currentEpoch)
          = true := by
        have : (originator == attNodeIndex) = false := by
          simpa using ho
        rw [this]
        simp
      rw [hcond]
      simp only [if_true]
      constructor
      · intro h; exact absurd h (by simp)
      · intro h; exact absurd h.1 ho
  · intro h
    rw [Edge.handle_parcel] at h ⊢
    by_cases hv : Edge.is_valid_message (committee.contains originator) msgEpoch currentEpoch
    · rw [hv] at h
      simp at h
    · have hv' : Edge.is_valid_message (committee.contains originator) msgEpoch currentEpoch
          = false := by
        cases hb : Edge.is_valid_message (committee.contains originator) msgEpoch currentEpoch
        · rfl
        · exact absurd hb hv
      rw [hv']
      simp
  · intro h
    rw [Edge.handle_attestation] at h ⊢
    by_cases hc : (!(originator == attNodeIndex)
        || !Edge.is_valid_message (committee.contains originator) msgEpoch currentEpoch) = true
    · rw [hc]
      simp
    · have hc' : (!(originator == attNodeIndex)
          || !Edge.is_valid_message (committee.contains originator) msgEpoch currentEpoch)
          = false := by
        cases hb : (!(originator == attNodeIndex)
            || !Edge.is_valid_message (committee.contains originator) msgEpoch currentEpoch)
        · rfl
        · exact absurd hb hc
      rw [hc'] at h
      simp at h

/-- C8, witness: the validity characterization instantiated at a concrete
current-epoch message from committee member 0 of committee `[0, 1]`. -/
theorem C8_witness :
    ((Edge.handle_parcel [0, 1] 5 false [] 0 5 [1] [2]).markedInvalid = false
      ↔ ((5 = 5 ∧ (0 : NodeIndex) ∈ ([0, 1] : List NodeIndex)) ∨ 5 = 5 + 1))
    ∧ ((Edge.handle_attestation [0, 1] 5 false 0 0 5).markedInvalid = false
      ↔ ((0 : NodeIndex) = 0 ∧
          ((5 = 5 ∧ (0 : NodeIndex) ∈ ([0, 1] : List NodeIndex)) ∨ 5 = 5 + 1)))
    ∧ ((Edge.handle_parcel [0, 1] 5 false [] 0 5 [1] [2]).markedInvalid = true →
        Edge.handle_parcel [0, 1] 5 false [] 0 5 [1] [2]
          = { markedInvalid := true, propagated := false, store := none, timer := none,
              triedExecute := false, pendingRequestsAfter := [] })
    ∧ ((Edge.handle_attestation [0, 1] 5 false 0 0 5).markedInvalid = true →
        Edge.handle_attestation [0, 1] 5 false 0 0 5
          = { markedInvalid := true, propagated := false, store := none,
              triedExecute := false }) :=
  C8_message_validity [0, 1] 5 false [] 0 0 5 [1] [2]

/-! Claim C3: the chain walk of `try_execute`. -/



/-- C3, counterexample: the parcel for the target digest `[5]` is absent from
the store, yet `try_execute` does not return `MissingParcel{digest: [5]}` —
because the store holds no attestations for `[5]`, the walk never starts and
the internal `MissingAttestations` outcome is mapped to `Ok(false)`.  This
refutes the claim for calls whose target lacks an attestation quorum. -/
theorem C3_counterexample :
    Exec.tryExecute (fun _ => false) 30000 C3emptyStore [5] 3 10
      = some (C3emptyStore, [], Except.ok false)
    ∧ C3emptyStore.parcels.lookup [5] = none :=
  ⟨rfl, rfl⟩

/-- C3 (amended): for every call to `try_execute` on a target digest that is
not marked pending and for which the store holds at least `threshold`
attestations, the store walks `last_executed` back-pointers from the target:
if some parcel on the walk is absent the call returns `MissingParcel` carrying
the first missing digest and the timeout (executing nothing), and if the walk
reaches the stored head the call executes the collected batches in chain
order, oldest first, and returns whether the epoch changed (the disjunction of
the per-block answers). -/
theorem C3_chain_walk (oracle : Digest → Bool) (timeout : Nat) (st : Exec.ExecState)
    (digest : Digest) (threshold fuel : Nat) (st' : Exec.ExecState)
    (ex : List Exec.BatchEntry) (r : Except Exec.NotExecuted Bool)
    (atts : List NodeIndex)
    (hp : st.pendingDigests.contains digest = false)
    (ha : st.attestations.lookup digest = some atts)
    (hlen : atts.length ≥ threshold)
    (hres : Exec.tryExecute oracle timeout st digest threshold fuel = some (st', ex, r)) :
    (∀ e, r = Except.error e → ∃ g, e = Exec.NotExecuted.missingParcel g timeout
        ∧ Exec.GapAt st.parcels st.head digest g ∧ ex = [])
    ∧ (∀ b, r = Except.ok b → Exec.ChainTo st.parcels st.head digest ex
        ∧ b = ex.any (fun x => oracle x.2.2)) := by
  rw [Exec.tryExecute_eq_internal] at hres
  have hint : Exec.tryExecuteInternal oracle timeout st digest threshold fuel
      = Exec.tryExecuteChain oracle timeout st digest fuel := by
    rw [Exec.tryExecuteInternal, hp]
    simp only [Bool.false_eq_true, if_false, ha, ge_iff_le, if_pos hlen]
  rw [hint] at hres
  cases hchain : Exec.tryExecuteChain oracle timeout st digest fuel with
  | none => rw [hchain] at hres; exact absurd hres (by simp)
  | some res =>
    obtain ⟨st1, ex1, r1⟩ := res
    rw [hchain] at hres
    cases r1 with
    | ok b =>
      simp only [Option.some.injEq, Prod.mk.injEq] at hres
      obtain ⟨hst, hex, hr⟩ := hres
      obtain ⟨bs, hc, hex1, hb⟩ :=
        Exec.tryExecuteChainGo_ok oracle timeout digest st fuel digest [] [] st1 ex1 b hchain
      constructor
      · intro e he; rw [← hr] at he; exact absurd he (by simp)
      · intro b' hb'
        rw [← hr] at hb'
        have hbb : b' = b := by
          injection hb' with h'; exact h'.symm
        subst hbb
        have hexbs : ex = bs := by rw [← hex, hex1, List.append_nil]
        refine ⟨?_, ?_⟩
        · rw [hexbs]; exact hc
        · rw [hb, hex]
    | error e =>
      obtain ⟨g, hg, hgap, hex1⟩ :=
        Exec.tryExecuteChainGo_err oracle timeout digest st fuel digest [] [] st1 ex1 e hchain
      subst hg
      simp only [Option.some.injEq, Prod.mk.injEq] at hres
      obtain ⟨hst, hex, hr⟩ := hres
      constructor
      · intro e' he'
        rw [← hr] at he'
        injection he' with h'
        exact ⟨g, h'.symm, hgap, hex.symm.trans hex1⟩
      · intro b' hb'
        rw [← hr] at hb'
        exact absurd hb' (by simp)

/-- C3, witness: in the `C3gapStore` scenario the target `[1]` has three
attestations but its predecessor `[0]` is absent; the amended statement
applies and yields the gap at `[0]`. -/
theorem C3_witness :
    ∃ g, Exec.NotExecuted.missingParcel [0] 30000 = Exec.NotExecuted.missingParcel g 30000
      ∧ Exec.GapAt C3gapStore.parcels C3gapStore.head [1] g
      ∧ ([] : List Exec.BatchEntry) = [] :=
  (C3_chain_walk (fun _ => false) 30000 C3gapStore [1] 3 10
      { parcels := C3gapStore.parcels, attestations := C3gapStore.attestations,
        pendingDigests := [[1]], executedDigests := [], head := [9] }
      [] (Except.error (Exec.NotExecuted.missingParcel [0] 30000)) [10, 11, 12]
      rfl rfl (by simp) rfl).1
    (Exec.NotExecuted.missingParcel [0] 30000) rfl

/-! Claim C5: locked stake and epoch-change signaling. -/

/-- C5, counterexample: in the genesis of
`test_change_epoch_with_only_locked_stake` (two committee nodes, node 0 with
`staked = 0, locked = 1000`, `min_stake = 1000`) the locked-stake node signals
successfully: the receipt is `Success`, its index is added to
`ready_to_change`, and after the second node signals the beacon transitions to
`Commit((0,0))` — exactly the outcome the in-repo test asserts — refuting the
claim that such a node reverts with `InsufficientStake`, stays out of
`ready_to_change`, and leaves the beacon in `None`. -/
theorem C5_counterexample :
    (App.changeEpoch App.lockedStakeGenesis 0 0).1 = App.TxnResponse.success
    ∧ App.readyOf (App.changeEpoch App.lockedStakeGenesis 0 0).2.2 0 = [0]
    ∧ (App.changeEpoch
        (App.changeEpoch App.lockedStakeGenesis 0 0).2.2 1 0).2.2.beaconPhase
        = App.BeaconPhase.commit (0, 0) :=
  ⟨rfl, rfl, rfl⟩

/-- C5 (amended): the minimum-stake eligibility check for `ChangeEpoch`
compares the node's combined `staked + locked` amount against `min_stake`: a
node whose combined stake is below the minimum reverts with
`InsufficientStake` and the state is unchanged (so its index is not added to
`ready_to_change` and the beacon phase does not move), while a node with
`staked = 0, locked = 1000, min_stake = 1000` signals successfully and counts
toward the quorum. -/
theorem C5_insufficient_combined_stake_reverts
    (st : App.AppState) (sender : NodeIndex) (e : Epoch) (info : App.NodeInfo)
    (hn : st.nodes.lookup sender = some info)
    (hlow : info.staked + info.locked < st.minStake) :
    App.changeEpoch st sender e
      = (App.TxnResponse.revert App.ExecutionError.insufficientStake, false, st) := by
  rw [App.changeEpoch, hn]
  dsimp only
  rw [if_pos hlow]

/-- C5, witness: a node with `staked = 300, locked = 300` against
`min_stake = 1000` reverts with `InsufficientStake` and changes nothing. -/
theorem C5_witness :
    App.changeEpoch App.lowStakeState 0 0
      = (App.TxnResponse.revert App.ExecutionError.insufficientStake, false,
         App.lowStakeState) :=
  C5_insufficient_combined_stake_reverts App.lowStakeState 0 0 ⟨300, 300, true⟩ rfl
    (by decide)

/-! Claim C6: the epoch-change signal quorum. -/

/-- C6, counterexample: with the four-node committee the beacon transitions to
`Commit((0,0))` on the third signal, when `ready_to_change = [0, 1, 2]` has
cardinality 3 — but the claim's formula `⌈2·4/3⌉ + 1` equals 4, so the
transition did not happen "exactly when `|ready_to_change|` reaches
`⌈2·|members|/3⌉ + 1`". -/
theorem C6_counterexample :
    (App.changeEpoch (App.changeEpoch
        (App.changeEpoch App.fourNodeGenesis 0 0).2.2 1 0).2.2 2 0).2.2.beaconPhase
      = App.BeaconPhase.commit (0, 0)
    ∧ App.readyOf (App.changeEpoch (App.changeEpoch
        (App.changeEpoch App.fourNodeGenesis 0 0).2.2 1 0).2.2 2 0).2.2 0
      = [0, 1, 2]
    ∧ Edge.specCeilThreshold 4 = 4 :=
  ⟨rfl, rfl, rfl⟩

/-- C6 (amended): an accepted `ChangeEpoch` signal from an eligible committee
member returns `Success` with `change_epoch = false`, inserts the sender into
the current epoch's `ready_to_change` in sorted order, and transitions the
beacon phase from `None` to `Commit((epoch, 0))` exactly when the new
cardinality reaches `⌊2·|members|/3⌋ + 1`; with 4 members that bound is 3, so
the first two signals cause no transition and the third does. -/
theorem C6_commit_transition
    (st : App.AppState) (sender : NodeIndex) (info : App.NodeInfo)
    (c : App.CommitteeInfo)
    (hn : st.nodes.lookup sender = some info)
    (hstake : ¬ info.staked + info.locked < st.minStake)
    (hpart : info.participating = true)
    (hc : st.committees.lookup st.epoch = some c)
    (hmem : sender ∈ c.members)
    (hnew : sender ∉ c.ready_to_change)
    (hphase : st.beaconPhase = App.BeaconPhase.none) :
    (App.changeEpoch st sender st.epoch).1 = App.TxnResponse.success
    ∧ (App.changeEpoch st sender st.epoch).2.1 = false
    ∧ App.readyOf (App.changeEpoch st sender st.epoch).2.2 st.epoch
        = App.insertSortedIndex sender c.ready_to_change
    ∧ ((App.changeEpoch st sender st.epoch).2.2.beaconPhase
          = App.BeaconPhase.commit (st.epoch, 0)
        ↔ App.epochChangeThreshold c.members
            ≤ (App.insertSortedIndex sender c.ready_to_change).length) := by
  have hcb : c.members.contains sender = true := by
    simpa [List.elem_eq_mem, decide_eq_true_eq] using hmem
  have hrb : c.ready_to_change.contains sender = false := by
    cases hr0 : c.ready_to_change.contains sender
    · rfl
    · exact absurd (by simpa [List.elem_eq_mem, decide_eq_true_eq] using hr0) hnew
  rw [App.changeEpoch, hn]
  dsimp only
  rw [if_neg hstake, hpart]
  simp only [Bool.not_true, Bool.false_eq_true, if_false,
    if_neg (lt_irrefl st.epoch)]
  rw [hc]
  dsimp only
  rw [hcb]
  simp only [Bool.not_true, Bool.false_eq_true, if_false, hrb]
  refine ⟨by trivial, by trivial, ?_, ?_⟩
  · rw [App.readyOf]
    show ((List.lookup st.epoch (App.updateCommittee st.epoch
      ⟨c.members, App.insertSortedIndex sender c.ready_to_change⟩ st.committees)).map
        App.CommitteeInfo.ready_to_change).getD []
      = App.insertSortedIndex sender c.ready_to_change
    rw [App.lookup_updateCommittee_self]
    rfl
  · show (if App.epochChangeThreshold c.members
        ≤ (App.insertSortedIndex sender c.ready_to_change).length then
          App.BeaconPhase.commit (st.epoch, 0)
        else st.beaconPhase)
        = App.BeaconPhase.commit (st.epoch, 0)
      ↔ App.epochChangeThreshold c.members
          ≤ (App.insertSortedIndex sender c.ready_to_change).length
    by_cases hthr : App.epochChangeThreshold c.members
        ≤ (App.insertSortedIndex sender c.ready_to_change).length
    · rw [if_pos hthr]
      exact ⟨fun _ => hthr, fun _ => rfl⟩
    · rw [if_neg hthr, hphase]
      exact ⟨fun hco => App.BeaconPhase.noConfusion hco, fun hco => absurd hco hthr⟩

/-- C6, witness: the third signal of the four-node scenario — node 2 signaling
on top of `ready_to_change = [0, 1]` — succeeds with `change_epoch = false`,
makes the set `[0, 1, 2]`, and the transition-iff holds with the floor bound
`3 ≤ 3`. -/
theorem C6_witness :
    (App.changeEpoch App.twoSignalState 2 0).1 = App.TxnResponse.success
    ∧ (App.changeEpoch App.twoSignalState 2 0).2.1 = false
    ∧ App.readyOf (App.changeEpoch App.twoSignalState 2 0).2.2 0
        = App.insertSortedIndex 2 [0, 1]
    ∧ ((App.changeEpoch App.twoSignalState 2 0).2.2.beaconPhase
          = App.BeaconPhase.commit (0, 0)
        ↔ App.epochChangeThreshold [0, 1, 2, 3]
            ≤ (App.insertSortedIndex 2 [0, 1]).length) :=
  C6_commit_transition App.twoSignalState 2 ⟨1000, 0, true⟩ ⟨[0, 1, 2, 3], [0, 1]⟩
    rfl (by decide) rfl rfl (by decide) (by decide) rfl

/-! Claim C7: invariants of the ready-to-change set. -/

/-- C7: starting from any state whose committee records are well-formed, after
any sequence of transactions every epoch's `ready_to_change` set is sorted,
duplicate-free and a subset of that epoch's members; a `ChangeEpoch`
transaction never removes an index from any epoch's set (so the set only
grows during an epoch); and on entry to epoch `e + 1` the `ready_to_change`
set of the then-current epoch `e + 1` is empty. -/
theorem C7_ready_to_change_invariants (st : App.AppState) (ts : List App.AppTxn)
    (hwf : App.WF st) :
    (∀ e : Epoch,
      (App.readyOf (App.runTxns st ts) e).Sorted (· ≤ ·)
      ∧ (App.readyOf (App.runTxns st ts) e).Nodup
      ∧ ∀ x ∈ App.readyOf (App.runTxns st ts) e,
          x ∈ App.membersOf (App.runTxns st ts) e)
    ∧ (∀ (st' : App.AppState) (s : NodeIndex) (e ep : Epoch),
        ∀ x ∈ App.readyOf st' ep,
          x ∈ App.readyOf (App.stepTxn st' (App.AppTxn.changeEpoch s e)) ep)
    ∧ (∀ (st' : App.AppState) (m : List NodeIndex),
        App.readyOf (App.advanceEpoch st' m) (st'.epoch + 1) = []) := by
  refine ⟨?_, ?_, ?_⟩
  · intro e
    have hw : App.WF (App.runTxns st ts) := App.WF_runTxns ts st hwf
    cases hl : (App.runTxns st ts).committees.lookup e with
    | none =>
      rw [App.readyOf, hl]
      exact ⟨List.sorted_nil, List.nodup_nil, by simp⟩
    | some c =>
      obtain ⟨h1, h2, h3⟩ := hw (e, c) (App.mem_of_lookup_eq_some _ _ _ hl)
      rw [App.readyOf, App.membersOf, hl]
      simp only [Option.map_some', Option.getD_some]
      exact ⟨h1, h2, h3⟩
  · intro st' s e ep x hx
    exact App.readyOf_mono_changeEpoch st' s e ep x hx
  · intro st' m
    exact App.readyOf_advanceEpoch_reset st' m

/-- C7, witness: the invariants instantiated on the four-node genesis and a
run of two signals followed by an epoch advance. -/
theorem C7_witness :
    (∀ e : Epoch,
      (App.readyOf (App.runTxns App.fourNodeGenesis
        [App.AppTxn.changeEpoch 0 0, App.AppTxn.changeEpoch 1 0,
         App.AppTxn.advance [0, 1]] ) e).Sorted (· ≤ ·)
      ∧ (App.readyOf (App.runTxns App.fourNodeGenesis
        [App.AppTxn.changeEpoch 0 0, App.AppTxn.changeEpoch 1 0,
         App.AppTxn.advance [0, 1]] ) e).Nodup
      ∧ ∀ x ∈ App.readyOf (App.runTxns App.fourNodeGenesis
        [App.AppTxn.changeEpoch 0 0, App.AppTxn.changeEpoch 1 0,
         App.AppTxn.advance [0, 1]] ) e,
          x ∈ App.membersOf (App.runTxns App.fourNodeGenesis
        [App.AppTxn.changeEpoch 0 0, App.AppTxn.changeEpoch 1 0,
         App.AppTxn.advance [0, 1]] ) e)
    ∧ (∀ (st' : App.AppState) (s : NodeIndex) (e ep : Epoch),
        ∀ x ∈ App.readyOf st' ep,
          x ∈ App.readyOf (App.stepTxn st' (App.AppTxn.changeEpoch s e)) ep)
    ∧ (∀ (st' : App.AppState) (m : List NodeIndex),
        App.readyOf (App.advanceEpoch st' m) (st'.epoch + 1) = []) :=
  C7_ready_to_change_invariants App.fourNodeGenesis
    [App.AppTxn.changeEpoch 0 0, App.AppTxn.changeEpoch 1 0, App.AppTxn.advance [0, 1]]
    (by
      intro p hp
      rcases List.mem_singleton.mp hp with rfl
      exact ⟨List.sorted_nil, List.nodup_nil, by simp⟩)

/-! Claim C9: the reward distribution of `test_distribute_rewards`. -/

/-- C9: in the scenario of `test_distribute_rewards` the fixed-precision
reward computation yields: node revenues 2000 and 1000 stablecoins and a pool
of 3000; owner stablecoin payouts of exactly 1600 (node 0) and 800 (node 1);
exactly 300 stablecoins plus `emissions · 0.1` FLK for the protocol account,
with `emissions = (max_inflation/100) · supply_at_year_start /
epochs_per_year = 273.972602739726027397` FLK; service revenues 1280 and 1720
(the claimed `1280 : 1720` proportions), with the service owners receiving the
`HpUfixed<6>` products `300 · (1280/3000) = 127.999800` and
`300 · (1720/3000) = 171.999900` stablecoins and the `HpUfixed<18>` products
of `emissions · 0.1` with the same proportions as FLK. -/
theorem C9_reward_distribution :
    Rewards.nodeRevenue Rewards.testRewardsInput 0 = Rewards.hpFromNat 6 2000
    ∧ Rewards.nodeRevenue Rewards.testRewardsInput 1 = Rewards.hpFromNat 6 1000
    ∧ Rewards.rewardPool Rewards.testRewardsInput = Rewards.hpFromNat 6 3000
    ∧ Rewards.nodeStables Rewards.testRewardsInput 0 = Rewards.hpFromNat 6 1600
    ∧ Rewards.nodeStables Rewards.testRewardsInput 1 = Rewards.hpFromNat 6 800
    ∧ Rewards.protocolStables Rewards.testRewardsInput = Rewards.hpFromNat 6 300
    ∧ Rewards.emissions Rewards.testRewardsInput = 273972602739726027397
    ∧ Rewards.protocolFlk Rewards.testRewardsInput = 27397260273972602739
    ∧ Rewards.serviceRevenue Rewards.testRewardsInput 0 = Rewards.hpFromNat 6 1280
    ∧ Rewards.serviceRevenue Rewards.testRewardsInput 1 = Rewards.hpFromNat 6 1720
    ∧ Rewards.serviceProportion18 Rewards.testRewardsInput 0
        = Rewards.hpDiv 18 (Rewards.hpFromNat 18 1280) (Rewards.hpFromNat 18 3000)
    ∧ Rewards.serviceProportion18 Rewards.testRewardsInput 1
        = Rewards.hpDiv 18 (Rewards.hpFromNat 18 1720) (Rewards.hpFromNat 18 3000)
    ∧ Rewards.serviceStables Rewards.testRewardsInput 0 = 127999800
    ∧ Rewards.serviceStables Rewards.testRewardsInput 1 = 171999900
    ∧ Rewards.serviceFlk Rewards.testRewardsInput 0
        = Rewards.hpMul 18 (Rewards.hpMul 18 273972602739726027397
            (Rewards.shareFrac18 10)) 426666666666666666
    ∧ Rewards.serviceFlk Rewards.testRewardsInput 1
        = Rewards.hpMul 18 (Rewards.hpMul 18 273972602739726027397
            (Rewards.shareFrac18 10)) 573333333333333333 :=
  ⟨rfl, rfl, rfl, rfl, rfl, rfl, rfl, rfl, rfl, rfl, rfl, rfl, rfl, rfl, rfl, rfl⟩

/-! Claim C10: the parcel digest ignores `epoch` and `sub_dag_index`. -/

/-- C10: `AuthenticStampedParcel::to_digest` hashes only the transaction
count, the batch digest of the transactions, and `last_executed`; two parcels
agreeing on `transactions` and `last_executed` therefore produce the same
digest even when their `epoch` and `sub_dag_index` fields differ, for any
hash functions. -/
theorem C10_digest_ignores_epoch_and_subdag
    (blake3 : List Nat → Digest) (batchDigest : List Txn → List Nat)
    (p q : Exec.AuthenticStampedParcel)
    (ht : p.transactions = q.transactions)
    (hl : p.last_executed = q.last_executed) :
    Exec.to_digest blake3 batchDigest p = Exec.to_digest blake3 batchDigest q := by
  unfold Exec.to_digest Exec.digestPreimage
  rw [ht, hl]

/-- C10, witness: two concrete parcels sharing transactions and back-pointer
but differing in both `epoch` and `sub_dag_index` hash identically (with
concrete hash functions). -/
theorem C10_witness :
    Exec.to_digest id (fun l => l.flatten) ⟨[[1, 2]], [7], 3, 4⟩
      = Exec.to_digest id (fun l => l.flatten) ⟨[[1, 2]], [7], 8, 9⟩ :=
  C10_digest_ignores_epoch_and_subdag id (fun l => l.flatten)
    ⟨[[1, 2]], [7], 3, 4⟩ ⟨[[1, 2]], [7], 8, 9⟩ rfl rfl

end Lightning
